import Mathlib

/-!
A verification development for the `getopt_rs` command-line parsing engine.
The Rust sources are shallowly embedded as executable Lean definitions:
each definition carries a note naming the Rust item it was translated from.
Error-returning Rust functions become `Except Err` valued functions, and
`&mut` state is made explicit by returning the (possibly updated) state.
-/

namespace GetoptRs

/-- Error values, mirroring the error constructors used by the embedded code
(`Error::raise_failure`, `Error::sp_invalid_option_name`,
`Error::sp_pos_force_require`, `Error::sp_cmd_force_require`,
`Error::con_can_not_insert_pos`, `SpecialError::OptionForceRequired`). -/
inductive Err where
  | failure (msg : String)
  | invalidOptName (name : String)
  | posForceRequire (names : String)
  | cmdForceRequire (names : String)
  | conCanNotInsertPos
  | missingArgument (name : String)
  | forceRequired (hint : String)
deriving DecidableEq, Repr

/-- Embedding of `BOOL_TRUE` from `src/aopt/src/opt/mod.rs` line 47. -/
def BOOL_TRUE : String := "true"

/-- Embedding of `BOOL_FALSE` from `src/aopt/src/opt/mod.rs` line 49. -/
def BOOL_FALSE : String := "false"

/-! ## Value storage (src/aopt/src/value/storer.rs, src/aopt/src/opt/valid.rs) -/

/-- The value-combination rule applied on each successful match.
Modelled from the spec: the `Action` enum of `src/aopt/src/opt/action.rs` is
not among the provided sources; the spec lists the four actions
replace / append / count / clone. -/
inductive EAction where
  | rep
  | app
  | cnt
  | clo
deriving DecidableEq, Repr

/-- The value slot an action writes into: the held values, a counter for the
count action, and the pre-set default used by the clone action. -/
structure ValSlot (α : Type) where
  vals : List α
  counter : Nat
  dflt : List α
deriving DecidableEq, Repr

/-- Modelled from the spec: `Action::store1` of `src/aopt/src/opt/action.rs`
is not among the provided sources; the spec says the action is applied as
replace / append to an ordered collection / increment a counter / clone a
pre-set default, and that a `None` value performs no write. -/
def store1 {α : Type} (act : EAction) (val : Option α) (slot : ValSlot α) : ValSlot α :=
  match val with
  | none => slot
  | some v =>
    match act with
    | .rep => { slot with vals := [v] }
    | .app => { slot with vals := slot.vals ++ [v] }
    | .cnt => { slot with counter := slot.counter + 1 }
    | .clo => { slot with vals := slot.dflt }

/-- Embedding of `ValStorer::validator` from `src/aopt/src/value/storer.rs` lines 50-69.
The closure parses the raw value, then branches on `validator.invoke(&val)`:
when the branch condition holds it returns the
`Value check failed for option` failure, otherwise it calls
`act.store1(Some(val), handler)` and returns `Ok(())`.
The typed validator `ValValidator<U>::invoke` itself lives in
`src/aopt/src/value/validator.rs`, which is not among the provided sources;
it is modelled from the spec as a predicate returning accept (`true`) or
reject (`false`). -/
def valStorerValidator {α : Type} (parse : Option String → Except Err α)
    (validator : α → Bool) (raw : Option String) (act : EAction)
    (slot : ValSlot α) : Except Err (ValSlot α) := do
  let val ← parse raw
  if validator val then
    .error (.failure "Value check failed for option")
  else
    .ok (store1 act (some val) slot)

/-- Embedding of `ValStorer::fallback` from `src/aopt/src/value/storer.rs` lines 71-81:
parse the raw value and apply the action, with no validation step. -/
def valStorerFallback {α : Type} (parse : Option String → Except Err α)
    (raw : Option String) (act : EAction) (slot : ValSlot α) :
    Except Err (ValSlot α) := do
  let val ← parse raw
  .ok (store1 act (some val) slot)

/-- Embedding of `ValValidator::bool` from `src/aopt/src/opt/valid.rs` lines 133-150.
The closure returns `Ok(true)` exactly when a raw string is present and
`deactivate_style && disable && val == BOOL_FALSE
 || !deactivate_style && !disable && val == BOOL_TRUE` holds. -/
def boolValidatorCheck (deactivateStyle : Bool) (val : Option String)
    (disable : Bool) : Except Err Bool :=
  match val with
  | some v =>
    if (deactivateStyle && disable && v == BOOL_FALSE)
        || (!deactivateStyle && !disable && v == BOOL_TRUE) then
      .ok true
    else
      .ok false
  | none => .ok false

/-! ## Option model used by the check service and the policies
(src/aopt/src/opt/mod.rs trait `Opt`, src/aopt/src/ser/check.rs) -/

/-- Option styles, from `OptStyle` as used in `src/aopt/src/ser/check.rs`
(`Main`, `Cmd`, `Pos`, `Argument`, `Boolean`, `Combined`). -/
inductive EStyle where
  | main
  | cmd
  | pos
  | argument
  | boolean
  | combined
deriving DecidableEq, Repr

/-- Positional index specifications, from `OptIndex` as matched in
`CheckService::pos_check` (`src/aopt/src/ser/check.rs` lines 101-121):
`Forward`, `Backward`, `List`, `Except`, `Greater`, `Less`, `AnyWhere`,
`Null`. -/
inductive EIndex where
  | fwd (n : Nat)
  | bwd (n : Nat)
  | lst (ns : List Nat)
  | exc (ns : List Nat)
  | grt (n : Nat)
  | les (n : Nat)
  | anywhere
  | null
deriving DecidableEq, Repr

/-- The `usize::MAX` value used as the total argument count in
`pre_check` and `pos_check` (`const MAX_INDEX: usize = usize::MAX`). -/
def MAX_INDEX : Nat := 2 ^ 64 - 1

/-- Modelled from the spec: `OptIndex::calc_index` of
`src/aopt/src/opt/index.rs` is not among the provided sources; the spec
describes the exact-position kinds as an exact 1-based position counted
from the front (`Forward`) or from the back (`Backward`). Both call sites
in the check service pass `usize::MAX` as the total count. -/
def calcIndexMax : EIndex → Option Nat
  | .fwd n => if n ≤ MAX_INDEX then some n else none
  | .bwd n => if n ≤ MAX_INDEX then some (MAX_INDEX - n + 1) else none
  | _ => none

/-- One configured option slot, carrying the fields consulted by the
embedded check service and policies: `uid()`, `mat_style(..)` (the style
capability set), `optional()`, `setted()`, `idx()` and `hint()` from the
`Opt` trait of `src/aopt/src/opt/mod.rs`. -/
structure EOpt where
  uid : Nat
  styles : List EStyle
  optional : Bool
  setted : Bool
  index : Option EIndex
  hint : String
deriving DecidableEq, Repr

/-- Embedding of `Opt::mat_style`: whether the option's capability set accepts a style. -/
def EOpt.matStyle (o : EOpt) (s : EStyle) : Bool := o.styles.contains s

/-- Modelled from the spec: the `valid()` implementation of the concrete
option types (`src/aopt/src/opt/aopt.rs`) is not among the provided
sources; the spec says the structural check fails exactly when
`force=true` and `set=false`, so an option is valid when it is optional
or has been set. -/
def EOpt.valid (o : EOpt) : Bool := o.optional || o.setted

/-! ## Check service (src/aopt/src/ser/check.rs) -/

/-- An option set as consumed by the check service: iteration in insertion
order over the registered options (`set.keys()` plus `Self::opt`). -/
def ESet : Type := List EOpt

/-- Embedding of `CheckService::pre_check` from `src/aopt/src/ser/check.rs` lines 46-71:
if any option accepts the `Cmd` style, then no non-optional `Pos` option
may resolve to index 1 (`calc_index(usize::MAX, 1).unwrap_or(usize::MAX)`),
otherwise the configuration error `con_can_not_insert_pos` is returned. -/
def preCheck (set : ESet) : Except Err Bool :=
  let hasCmd := set.any (fun o => o.matStyle .cmd)
  if hasCmd then
    if set.any (fun o =>
        o.matStyle .pos &&
          match o.index with
          | some index => ((calcIndexMax index).getD MAX_INDEX == 1) && !o.optional
          | none => false) then
      .error .conCanNotInsertPos
    else
      .ok true
  else
    .ok true

/-- Embedding of `CheckService::opt_check` from `src/aopt/src/ser/check.rs` lines 73-85:
returns `Ok` of the conjunction of `valid()` over every option accepting
the `Argument`, `Boolean` or `Combined` style.  Note the function has no
error path: a failed check surfaces only as the payload `false`. -/
def optCheck (set : ESet) : Except Err Bool :=
  .ok ((set.filter (fun o =>
    o.matStyle .argument || o.matStyle .boolean || o.matStyle .combined)).all
      (fun o => o.valid))

/-- Embedding of `CheckService::post_check` from `src/aopt/src/ser/check.rs` lines
187-194: `Ok` of the conjunction of `valid()` over the `Main`-style
options; like `opt_check` it has no error path. -/
def postCheck (set : ESet) : Except Err Bool :=
  .ok ((set.filter (fun o => o.matStyle .main)).all (fun o => o.valid))

/-- Embedding of `CheckService::cmd_check` from `src/aopt/src/ser/check.rs` lines
164-185: fold over the `Cmd`-style options, stopping at the first valid
one; hints of the invalid ones seen before that are collected, and if no
valid command was found and at least one hint was collected the
`sp_cmd_force_require` error is returned. -/
def cmdCheckFold : List EOpt → List String → Bool → (List String × Bool)
  | [], names, valid => (names, valid)
  | o :: rest, names, valid =>
    if o.matStyle .cmd then
      let valid' := valid || o.valid
      if valid' then (names, valid')
      else cmdCheckFold rest (names ++ [o.hint]) valid'
    else cmdCheckFold rest names valid

/-- The entry point of the command check, combining the fold's outcome
into the returned result. -/
def cmdCheck (set : ESet) : Except Err Bool :=
  let (names, valid) := cmdCheckFold set [] false
  if !valid && !names.isEmpty then
    .error (.cmdForceRequire (String.intercalate " | " names))
  else
    .ok true

/-- Insertion into the index map:
`index_map.entry(index).or_insert(vec![]).push(uid)` of `pos_check`. -/
def insertGroup : List (Nat × List Nat) → Nat → Nat → List (Nat × List Nat)
  | [], i, uid => [(i, [uid])]
  | (k, v) :: rest, i, uid =>
    if k == i then (k, v ++ [uid]) :: rest
    else (k, v) :: insertGroup rest i uid

/-- The grouping loop of `pos_check` (`src/aopt/src/ser/check.rs` lines
96-124): `Pos`-style options with a `Forward`/`Backward` index are grouped
under their resolved index, `List` indices are entered under every listed
position, and the floating kinds (`Except`, `Greater`, `Less`, `AnyWhere`)
go to a separate vector.  This function collects the CONTENTS of
`index_map` and `float_vec`: the association list enumerates the map's
entries with keys in first-seen order, and each group's uid vector is in
push order (deterministic in Rust, since `entry().or_insert().push` keeps
insertion order).  The `index_map` itself is a freshly built `HashMap`
whose key ITERATION order is unspecified, so a run of `pos_check` may
visit the groups in any permutation of this list; `posCheckOrd` below
takes that order as an explicit argument. -/
def posGroups (set : ESet) : List (Nat × List Nat) × List Nat :=
  set.foldl
    (fun (acc : List (Nat × List Nat) × List Nat) o =>
      let (indexMap, floatVec) := acc
      if o.matStyle .pos then
        match o.index with
        | some index =>
          match index with
          | .fwd _ | .bwd _ =>
            match calcIndexMax index with
            | some i => (insertGroup indexMap i o.uid, floatVec)
            | none => (indexMap, floatVec)
          | .lst ns =>
            (ns.foldl (fun m i => insertGroup m i o.uid) indexMap, floatVec)
          | .exc _ | .grt _ | .les _ | .anywhere =>
            (indexMap, floatVec ++ [o.uid])
          | .null => (indexMap, floatVec)
        | none => (indexMap, floatVec)
      else (indexMap, floatVec))
    ([], [])

/-- Embedding of `Self::opt(set, uid)` (`src/aopt/src/ser/check.rs` line 40): look an
option up by uid; the Rust code unwraps, so a missing uid is given a
vacuous default here (the check service only queries uids it collected
from the same set). -/
def optOf (set : ESet) (uid : Nat) : EOpt :=
  (set.find? (fun o => o.uid == uid)).getD
    { uid := uid, styles := [], optional := true, setted := false,
      index := none, hint := "" }

/-- The per-group accumulation of `CheckService::pos_check`
(`src/aopt/src/ser/check.rs` lines 132-144): `pos_valid` starts `true` and
is and-ed with `valid()` of every member while the hints of invalid
members are collected. -/
def groupFold (set : ESet) (uids : List Nat) : Bool × List String :=
  uids.foldl
    (fun (acc : Bool × List String) uid =>
      let o := optOf set uid
      let optValid := o.valid
      (acc.1 && optValid, if !optValid then acc.2 ++ [o.hint] else acc.2))
    (true, [])

/-- The loop over the index groups, in the order they are visited. -/
def posCheckGroups (set : ESet) : List (Nat × List Nat) → Except Err Unit
  | [] => .ok ()
  | (_, uids) :: rest =>
    let step := groupFold set uids
    if !step.1 then
      .error (.posForceRequire (String.intercalate " | " step.2))
    else
      posCheckGroups set rest

/-- One run of the body of `CheckService::pos_check`
(`src/aopt/src/ser/check.rs` lines 90-162), given the order `indexMap` in
which the run's `HashMap` iteration happens to visit the index groups: for
each group the fold runs, a false result returns `sp_pos_force_require`
with the joined hints, and a passing group clears the hint list; then the
floating options are checked individually (the floating vector is a `Vec`,
so its order is fixed).  Every permutation of `(posGroups set).1` is an
admissible order for a run. -/
def posCheckOrd (set : ESet) (indexMap : List (Nat × List Nat))
    (floatVec : List Nat) : Except Err Bool :=
  match posCheckGroups set indexMap with
  | .error e => .error e
  | .ok () =>
    if !floatVec.isEmpty then
      let names := (floatVec.filter (fun uid => !(optOf set uid).valid)).map
        (fun uid => (optOf set uid).hint)
      if !names.isEmpty then
        .error (.posForceRequire (String.intercalate " | " names))
      else
        .ok true
    else
      .ok true

/-- The representative run of `pos_check`, visiting the groups in
first-seen key order.  Facts that may depend on the unspecified group
order must be proved over `posCheckOrd` for every admissible order; the
inputs used by the theorems below that mention `posCheck` itself have at
most one index group, where all orders coincide. -/
def posCheck (set : ESet) : Except Err Bool :=
  posCheckOrd set (posGroups set).1 (posGroups set).2

/-! ## The first-generation option types
(src/getopt-rs/src/opt/opt/str.rs, src/getopt-rs/src/opt/nonopt/main.rs) -/

/-- The held value of a first-generation option (`OptValue`); the variants
used by the embedded types are `Null`, `Bool`, `Str` (its definition file
is not among the provided sources; the variants are those its callers in
`str.rs` and `main.rs` test with `is_null` / `is_str` / `is_bool`). -/
inductive OptValue where
  | null
  | bool (b : Bool)
  | str (s : String)
deriving DecidableEq, Repr

/-- Embedding of `OptValue::is_null`. -/
def OptValue.isNull : OptValue → Bool
  | .null => true
  | _ => false

/-- Embedding of `OptValue::is_str`. -/
def OptValue.isStr : OptValue → Bool
  | .str _ => true
  | _ => false

/-- The fields of `StrOpt` from `src/getopt-rs/src/opt/opt/str.rs`
consulted by its `check()`: the `optional` flag, the held value and the
display hint. -/
structure StrOpt where
  optional : Bool
  value : OptValue
  hint : String
deriving DecidableEq, Repr

/-- Embedding of `StrOpt::has_value` (`src/getopt-rs/src/opt/opt/str.rs` lines 237-239):
`self.get_value().is_str()`. -/
def StrOpt.hasValue (o : StrOpt) : Bool := o.value.isStr

/-- Embedding of `StrOpt::check` (`src/getopt-rs/src/opt/opt/str.rs` lines 78-84):
error `OptionForceRequired` when neither optional nor holding a value. -/
def StrOpt.check (o : StrOpt) : Except Err Unit :=
  if !(o.optional || o.hasValue) then
    .error (.forceRequired o.hint)
  else
    .ok ()

/-- The fields of `MainOpt` from `src/getopt-rs/src/opt/nonopt/main.rs`
consulted by its `check()` and `Optional` implementation. -/
structure MainOpt where
  uid : Nat
  name : String
  value : OptValue
  needInvoke : Bool
  hint : String
deriving DecidableEq, Repr

/-- Embedding of `MainOpt`'s `Optional::get_optional`
(`src/getopt-rs/src/opt/nonopt/main.rs` lines 137-139): always `true`. -/
def MainOpt.getOptional (_ : MainOpt) : Bool := true

/-- Embedding of `MainOpt`'s `Optional::set_optional`
(`src/getopt-rs/src/opt/nonopt/main.rs` line 141): the body is empty, so
the option is returned unchanged. -/
def MainOpt.setOptional (o : MainOpt) (_ : Bool) : MainOpt := o

/-- Embedding of `MainOpt::has_value` (`src/getopt-rs/src/opt/nonopt/main.rs` lines
193-195): `!self.get_value().is_null()`. -/
def MainOpt.hasValue (o : MainOpt) : Bool := !o.value.isNull

/-- Embedding of `MainOpt::check` (`src/getopt-rs/src/opt/nonopt/main.rs` lines 65-71):
error `ForceRequiredOption` when neither optional nor holding a value. -/
def MainOpt.check (o : MainOpt) : Except Err Bool :=
  if !(o.getOptional || o.hasValue) then
    .error (.forceRequired o.hint)
  else
    .ok true

/-! ## The delay policy (src/aopt/src/policy/policy_delay.rs) and the
style-priority loop it shares with the forward policy
(src/aopt/src/parser/forward_policy.rs) -/

/-- Embedding of `UserStyle` as used by the policies. -/
inductive UStyle where
  | equalWithValue
  | argument
  | boolean
  | combinedOption
  | embeddedValue
  | embeddedValuePlus
  | flag
  | cmd
  | pos
  | main
deriving DecidableEq, Repr

/-- The fixed option-style array of `DelayPolicy::parse`
(`src/aopt/src/policy/policy_delay.rs` lines 135-141). -/
def delayOptStyles : List UStyle :=
  [.equalWithValue, .argument, .boolean, .combinedOption, .embeddedValue]

/-- Embedding of `ParserState` as used by the first-generation forward policy. -/
inductive PState where
  | psEqualWithValue
  | psArgument
  | psBoolean
  | psMultipleOption
  | psEmbeddedValue
  | psNonCmd
  | psNonPos
  | psNonMain
deriving DecidableEq, Repr

/-- The fixed `parser_state` array of `ForwardPolicy::parse`
(`src/aopt/src/parser/forward_policy.rs` lines 58-64). -/
def forwardParserStates : List PState :=
  [.psEqualWithValue, .psArgument, .psBoolean, .psMultipleOption,
   .psEmbeddedValue]

/-- The style each first-generation parser state guesses
(`PSMultipleOption` is the combined-option style, per the spec glossary of
styles). -/
def PState.style : PState → UStyle
  | .psEqualWithValue => .equalWithValue
  | .psArgument => .argument
  | .psBoolean => .boolean
  | .psMultipleOption => .combinedOption
  | .psEmbeddedValue => .embeddedValue
  | .psNonCmd => .cmd
  | .psNonPos => .pos
  | .psNonMain => .main

/-- The outcome of guessing one style against one token: whether the
produced process matched (`proc.is_mat()`), whether it consumed the
following argument as a value (`proc.consume()`), and the saved invocation
contexts (the `ret` of `process_opt`), given by the uids of the matched
options.  The guess engine itself (`OptGuess` in
`src/aopt/src/policy/mod.rs`) is not among the provided sources, so each
token carries its guess outcomes as data. -/
structure GuessRes where
  isMat : Bool
  consume : Bool
  savers : List Nat
deriving DecidableEq, Repr

/-- One raw argument as seen by the option loop of `DelayPolicy::parse`:
its text, the parsed option name when the token carries a recognized
option syntax (`opt.parse(set.pre())` returning `Ok(clopt)`), and the
guess outcome per style. -/
structure Tok where
  text : String
  cl : Option String
  guess : UStyle → Option GuessRes

/-- Whether a style produces a match for a token's guess function. -/
def matchP (guess : UStyle → Option GuessRes) (s : UStyle) : Bool :=
  match guess s with
  | some proc => proc.isMat
  | none => false

/-- Accumulator of the per-token style loop. -/
structure StyleLoopRes where
  matched : Bool
  consume : Bool
  savers : List Nat
  tried : List UStyle
  matchedStyle : Option UStyle
deriving DecidableEq, Repr

/-- The style loop body of `DelayPolicy::parse`
(`src/aopt/src/policy/policy_delay.rs` lines 156-174): for each style in
order, run the guess; on a produced process, extend the saved contexts and
set `matched` when it matched, set `consume` when it consumed, and break
out of the loop once matched.  `tried` records every style the loop
consulted, in order. -/
def styleLoop (guess : UStyle → Option GuessRes) :
    List UStyle → StyleLoopRes → StyleLoopRes
  | [], acc => acc
  | s :: rest, acc =>
    let acc := { acc with tried := acc.tried ++ [s] }
    match guess s with
    | none => styleLoop guess rest acc
    | some proc =>
      let acc :=
        if proc.isMat then
          { acc with matched := true, savers := acc.savers ++ proc.savers,
                     matchedStyle := some s }
        else acc
      let acc := if proc.consume then { acc with consume := true } else acc
      if acc.matched then acc else styleLoop guess rest acc

/-- Run the style loop over the fixed delay-policy style order. -/
def processStyles (guess : UStyle → Option GuessRes) : StyleLoopRes :=
  styleLoop guess delayOptStyles
    { matched := false, consume := false, savers := [], tried := [],
      matchedStyle := none }

/-- The result of processing one token. -/
structure TokRes where
  matched : Bool
  consume : Bool
  savers : List Nat
  noaPush : Bool
deriving DecidableEq, Repr

/-- Processing of one token by the option loop of `DelayPolicy::parse`
(`src/aopt/src/policy/policy_delay.rs` lines 149-188): when the token
parses as an option, the style loop runs; if nothing matched and strict
mode is on, the parse aborts with `sp_invalid_option_name`; an unmatched
token is destined for the NOA list (`noa_args.push`). -/
def processTok (strict : Bool) (t : Tok) : Except Err TokRes :=
  match t.cl with
  | some clname =>
    let r := processStyles t.guess
    if !r.matched && strict then
      .error (.invalidOptName clname)
    else
      .ok { matched := r.matched, consume := r.consume, savers := r.savers,
            noaPush := !r.matched }
  | none =>
    .ok { matched := false, consume := false, savers := [], noaPush := true }

/-- The option loop of `DelayPolicy::parse`
(`src/aopt/src/policy/policy_delay.rs` lines 149-189): tokens are
processed left to right; when a match consumed the following argument that
argument is skipped (`let _ = iter.next()`); unmatched tokens are pushed
onto the NOA list.  Returns the saved invocation contexts in match order
and the NOA texts in order. -/
def delayOptLoop (strict : Bool) : List Tok →
    Except Err (List Nat × List String)
  | [] => .ok ([], [])
  | [t] =>
    match processTok strict t with
    | .error e => .error e
    | .ok r => .ok (r.savers, if r.noaPush then [t.text] else [])
  | t :: t' :: rest =>
    match processTok strict t with
    | .error e => .error e
    | .ok r =>
      if r.matched && r.consume then
        match delayOptLoop strict rest with
        | .error e => .error e
        | .ok (cs, noa) =>
          .ok (r.savers ++ cs, (if r.noaPush then [t.text] else []) ++ noa)
      else
        match delayOptLoop strict (t' :: rest) with
        | .error e => .error e
        | .ok (cs, noa) =>
          .ok (r.savers ++ cs, (if r.noaPush then [t.text] else []) ++ noa)

/-- Observable events of one delay-policy parse, in the order
`DelayPolicy::parse` performs them: the pre check, the option matches of
the token loop, Cmd processing, the cmd check, Pos processing, the
deferred option-handler invocations (`invoke_opt_callback`), the opt
check, the pos check, Main processing, and the post check. -/
inductive Event where
  | preCheckEv
  | optMatch (uid : Nat)
  | noaCmd
  | cmdCheckEv
  | noaPos (i : Nat)
  | invokeOpt (uid : Nat)
  | optCheckEv
  | posCheckEv
  | noaMain
  | postCheckEv
deriving DecidableEq, Repr

/-- Whether the NOA guesses of `DelayPolicy::parse` produce a process for
the Cmd style, for the Pos style at each 1-based NOA index, and for the
Main style (`NOAGuess` is not among the provided sources, so the outcomes
are data). -/
structure NoaCfg where
  cmdMat : Bool
  posMat : Nat → Bool
  mainMat : Bool

/-- Embedding of `DelayPolicy::parse` from `src/aopt/src/policy/policy_delay.rs` lines
125-246, instrumented with an event trace.  The sequencing is the
source's: `pre_check` (line 131); the option loop saving contexts instead
of invoking handlers (149-189); if any NOA exists, Cmd processing, then
`cmd_check`, then Pos processing in index order (200-219), otherwise only
`cmd_check` (221); `invoke_opt_callback` draining the saved contexts in
order (225); `opt_check` (227) and `pos_check` (229); Main processing
(235-240); `post_check` (242); finally `Ok(Some(true))`.  Each `?` becomes
a match whose error arm returns the error; in particular the `Ok` payloads
of `opt_check` and `post_check` are discarded exactly as in the source.
Both source branches run `cmd_check` right after the (non-failing,
abstracted) Cmd processing, so the check is factored in front of the
branch on the NOA count.  Handler bodies are outside the provided sources;
their invocations are recorded as events and treated as succeeding. -/
def delayParse (strict : Bool) (set : ESet) (toks : List Tok) (ncfg : NoaCfg) :
    Except Err (Bool × List Event) :=
  match preCheck set with
  | .error e => .error e
  | .ok _ =>
    match delayOptLoop strict toks with
    | .error e => .error e
    | .ok (ctxs, noaArgs) =>
      let tr1 := [Event.preCheckEv] ++ ctxs.map Event.optMatch
      let noaLen := noaArgs.length
      match cmdCheck set with
      | .error e => .error e
      | .ok _ =>
        let tr2 :=
          if noaLen > 0 then
            ((tr1 ++ (if ncfg.cmdMat then [Event.noaCmd] else []))
              ++ [Event.cmdCheckEv])
              ++ ((List.range noaLen).filterMap (fun idx =>
                if ncfg.posMat (idx + 1) then some (Event.noaPos (idx + 1))
                else none))
          else tr1 ++ [Event.cmdCheckEv]
        let tr3 := tr2 ++ ctxs.map Event.invokeOpt
        match optCheck set with
        | .error e => .error e
        | .ok _ =>
          let tr4 := tr3 ++ [Event.optCheckEv]
          match posCheck set with
          | .error e => .error e
          | .ok _ =>
            let tr5 := tr4 ++ [Event.posCheckEv]
            let tr6 := tr5 ++ (if ncfg.mainMat then [Event.noaMain] else [])
            match postCheck set with
            | .error e => .error e
            | .ok _ => .ok (true, tr6 ++ [Event.postCheckEv])

/-! ## The invocation wrapper (src/aopt/src/ctx/mod.rs) -/

/-- Embedding of `wrap_handler` from `src/aopt/src/ctx/mod.rs` lines 72-87.  The wrapped
callback runs `Args::extract(...)?`, feeds the result to
`handler.invoke(...)?`, and hands the handler's output to
`store.process(...)?`: each `?` propagates the error of its stage and
skips the following stages. -/
def wrapHandler {Args Output Ret : Type} (ext : Except Err Args)
    (handler : Args → Except Err (Option Output))
    (store : Option Output → Except Err Ret) : Except Err Ret := do
  let a ← ext
  let val ← handler a
  store val

/-- Modelled from the spec: the default `Store` implementation
(`src/aopt/src/ctx/handler.rs` and the invoke service are not among the
provided sources); the spec says a successful handler output of no value
performs no store write, and otherwise the returned value is written into
the slot (default action: direct replace). -/
def defStore {Output : Type} (slot : List Output) (val : Option Output) :
    Except Err (List Output) :=
  match val with
  | none => .ok slot
  | some v => .ok [v]

/-! ## The check service as a state transformer (for the purity claim) -/

/-- The five checkpoints of the check service. -/
inductive Checkpoint where
  | pre
  | opt
  | cmd
  | pos
  | post
deriving DecidableEq, Repr

/-- One checkpoint run against the option set, state-passing style: every
checkpoint of `src/aopt/src/ser/check.rs` receives `&mut Set` but its body
only reads the set (`set.keys()` and `Self::opt`), so the embedding
returns the set exactly as received together with the checkpoint's
result.  For `.pos` this fixes the representative group order; statements
about re-running `pos_check` must quantify over the admissible orders of
`posCheckOrd` instead. -/
def runCheckpoint (k : Checkpoint) (set : ESet) : ESet × Except Err Bool :=
  match k with
  | .pre => (set, preCheck set)
  | .opt => (set, optCheck set)
  | .cmd => (set, cmdCheck set)
  | .pos => (set, posCheck set)
  | .post => (set, postCheck set)

/-! ## Auxiliary definitions used by the statements below -/

/-- Modelled from the spec: the raw parser of the string type
(`RawValParser` in `src/aopt/src/value/mod.rs` is not among the provided
sources); a present raw token parses to itself, a missing one is an
error. -/
def strRawParse : Option String → Except Err String
  | some s => .ok s
  | none => .error (.failure "missing raw value")

/-- The pipeline phase an event belongs to, numbered in the order
`DelayPolicy::parse` reaches the corresponding code. -/
def evPhase : Event → Nat
  | .preCheckEv => 0
  | .optMatch _ => 1
  | .noaCmd => 2
  | .cmdCheckEv => 3
  | .noaPos _ => 4
  | .invokeOpt _ => 5
  | .optCheckEv => 6
  | .posCheckEv => 7
  | .noaMain => 8
  | .postCheckEv => 9

/-- Phase monotonicity relation on events: the earlier event belongs to a
pipeline phase no later than the second one's. -/
def phaseLE (x y : Event) : Prop := evPhase x ≤ evPhase y

/-- The uid carried by an option-match event. -/
def matchUid : Event → Option Nat
  | .optMatch u => some u
  | _ => none

/-- The uid carried by a deferred-handler-invocation event. -/
def invokeUid : Event → Option Nat
  | .invokeOpt u => some u
  | _ => none

/-- Sample token: an option-looking token whose Argument-style guess
matches the option with uid 7 and consumes the following argument. -/
def exOptTok : Tok :=
  { text := "--name", cl := some "name",
    guess := fun s =>
      if s == UStyle.argument then
        some { isMat := true, consume := true, savers := [7] }
      else none }

/-- Sample token: the argument consumed as the value of `exOptTok`. -/
def exValTok : Tok := { text := "alice", cl := none, guess := fun _ => none }

/-- Sample token: a plain non-option argument. -/
def exNoaTok : Tok := { text := "x", cl := none, guess := fun _ => none }

/-- Sample token: carries a recognized option syntax (`cl` is `some`) but
no style produces a match for it. -/
def exBogusTok : Tok := { text := "--bogus", cl := some "bogus", guess := fun _ => none }

/-- Sample positional option at exact index 1, force-required and set. -/
def exPosSetOpt : EOpt :=
  { uid := 1, styles := [.pos], optional := false, setted := true,
    index := some (.fwd 1), hint := "posA" }

/-- Sample positional option at exact index 1, force-required and unset. -/
def exPosUnsetOpt : EOpt :=
  { uid := 2, styles := [.pos], optional := false, setted := false,
    index := some (.fwd 1), hint := "posB" }

/-- Sample positional option at exact index 2, force-required and unset,
forming a second invalid index group next to `exPosUnsetOpt`. -/
def exPosUnsetOpt2 : EOpt :=
  { uid := 4, styles := [.pos], optional := false, setted := false,
    index := some (.fwd 2), hint := "posD" }

/-- Sample Argument-style option, force-required and unset. -/
def exForceOpt : EOpt :=
  { uid := 3, styles := [.argument], optional := false, setted := false,
    index := none, hint := "--f" }

/-- The trace of the sample delay parse used for claim C3. -/
def exDelayTrace : List Event :=
  [.preCheckEv, .optMatch 7, .cmdCheckEv, .noaPos 1, .invokeOpt 7,
   .optCheckEv, .posCheckEv, .noaMain, .postCheckEv]

/-! ## Claim theorems -/

/-- C1: the claim says the storer returns a validation-failure error iff the
validator declines, and stores via the action when it accepts.  The code of
`ValStorer::validator` does the opposite: with an accept-everything
validator the storer returns the `Value check failed` error, and with a
decline-everything validator it stores the value and succeeds. -/
theorem c1_validator_storer_inverted :
    valStorerValidator strRawParse (fun _ => true) (some "x") .rep
        { vals := [], counter := 0, dflt := [] } =
      .error (.failure "Value check failed for option")
    ∧ valStorerValidator strRawParse (fun _ => false) (some "x") .rep
        { vals := [], counter := 0, dflt := [] } =
      .ok { vals := ["x"], counter := 0, dflt := [] } :=
  ⟨rfl, rfl⟩

/-- C2: the claim says a positional index group passes `pos_check` whenever
at least one member was set.  On a set holding two exact-index-1 positional
options, the first force-required and set, the second force-required and
unset, `pos_check` nevertheless returns the positional force-required
error naming the unset member: the group loop and-s `valid()` over all
members instead of accepting the group once one member is set. -/
theorem c2_pos_check_group_not_substitutable :
    exPosSetOpt.matStyle .pos = true ∧ exPosUnsetOpt.matStyle .pos = true
    ∧ exPosSetOpt.index = exPosUnsetOpt.index
    ∧ exPosSetOpt.setted = true
    ∧ posCheck [exPosSetOpt, exPosUnsetOpt] = .error (.posForceRequire "posB") :=
  ⟨rfl, rfl, rfl, rfl, rfl⟩

/-- C4: the claim says a deactivate-style boolean option accepts the
canonical true token when the disable flag is false (plain form `-v`) and
the canonical false token when the disable flag is true (the slash
negation form).  The code of `ValValidator::bool` rejects the plain form when
deactivate style is enabled (first conjunct, the slip: the second disjunct
of its condition requires `!deactivate_style`), while the negation form
and the plain form of a non-deactivate boolean are accepted as claimed. -/
theorem c4_bool_validator_rejects_plain_true :
    boolValidatorCheck true (some BOOL_TRUE) false = .ok false
    ∧ boolValidatorCheck true (some BOOL_FALSE) true = .ok true
    ∧ boolValidatorCheck false (some BOOL_TRUE) false = .ok true :=
  ⟨rfl, rfl, rfl⟩

/-- Behavior of the style loop started from the empty accumulator: the
matched style is the first style of the list for which the guess produces
a matching process, the loop consults exactly the styles up to and
including that one, and the saved contexts are the ones of the matching
process. -/
theorem styleLoop_run (guess : UStyle → Option GuessRes) :
    ∀ (l : List UStyle) (acc : StyleLoopRes),
    acc.matched = false → acc.matchedStyle = none → acc.savers = [] →
    ((styleLoop guess l acc).matchedStyle = l.find? (matchP guess))
    ∧ ((styleLoop guess l acc).matched = (l.find? (matchP guess)).isSome)
    ∧ ((styleLoop guess l acc).savers =
        (match l.find? (matchP guess) with
         | some m => (match guess m with | some p => p.savers | none => [])
         | none => []))
    ∧ ((styleLoop guess l acc).tried = acc.tried ++
        (match l.find? (matchP guess) with
         | some m => l.takeWhile (fun s => !(matchP guess s)) ++ [m]
         | none => l)) := by
  intro l
  induction l with
  | nil =>
    intro acc h1 h2 h3
    refine ⟨h2, ?_, h3, by simp [styleLoop]⟩
    show acc.matched = false
    exact h1
  | cons s rest ih =>
    intro acc h1 h2 h3
    have hp : matchP guess s = ((guess s).map (fun p => p.isMat)).getD false := by
      unfold matchP
      cases guess s <;> rfl
    cases hg : guess s with
    | none =>
      have hps : matchP guess s = false := by rw [hp, hg]; rfl
      have step : styleLoop guess (s :: rest) acc =
          styleLoop guess rest { acc with tried := acc.tried ++ [s] } := by
        simp [styleLoop, hg]
      have ihr := ih { acc with tried := acc.tried ++ [s] } h1 h2 h3
      rw [step]
      rw [List.find?_cons_of_neg _ (by rw [hps]; exact Bool.false_ne_true),
        List.takeWhile_cons_of_pos (by rw [hps]; rfl)]
      refine ⟨ihr.1, ihr.2.1, ihr.2.2.1, ?_⟩
      rw [ihr.2.2.2]
      cases hf : List.find? (matchP guess) rest <;> simp
    | some proc =>
      cases hm : proc.isMat with
      | true =>
        have hps : matchP guess s = true := by rw [hp, hg]; simpa using hm
        have step : styleLoop guess (s :: rest) acc =
            (if proc.consume then { acc with tried := acc.tried ++ [s], matched := true, savers := acc.savers ++ proc.savers, matchedStyle := some s, consume := true } else { acc with tried := acc.tried ++ [s], matched := true, savers := acc.savers ++ proc.savers, matchedStyle := some s }) := by
          simp only [styleLoop, hg, hm]
          cases proc.consume <;> simp
        rw [step, List.find?_cons_of_pos _ hps]
        have htw : List.takeWhile (fun x => !(matchP guess x)) (s :: rest) = [] :=
          List.takeWhile_cons_of_neg (by rw [hps]; exact Bool.false_ne_true)
        rw [htw, h3]
        cases proc.consume <;>
          exact ⟨rfl, rfl, by simp [hg], by simp⟩
      | false =>
        have hps : matchP guess s = false := by rw [hp, hg]; simpa using hm
        have step : styleLoop guess (s :: rest) acc =
            styleLoop guess rest
              (if proc.consume then { acc with tried := acc.tried ++ [s], consume := true } else { acc with tried := acc.tried ++ [s] }) := by
          simp only [styleLoop, hg, hm]
          cases proc.consume <;> simp [h1]
        have ihr := ih
          (if proc.consume then { acc with tried := acc.tried ++ [s], consume := true } else { acc with tried := acc.tried ++ [s] })
          (by cases proc.consume <;> simpa using h1)
          (by cases proc.consume <;> simpa using h2)
          (by cases proc.consume <;> simpa using h3)
        have htried :
            (if proc.consume then { acc with tried := acc.tried ++ [s], consume := true } else { acc with tried := acc.tried ++ [s] }).tried
            = acc.tried ++ [s] := by
          cases proc.consume <;> rfl
        rw [step]
        rw [List.find?_cons_of_neg _ (by rw [hps]; exact Bool.false_ne_true),
          List.takeWhile_cons_of_pos (by rw [hps]; rfl)]
        refine ⟨ihr.1, ihr.2.1, ihr.2.2.1, ?_⟩
        rw [ihr.2.2.2, htried]
        cases hf : List.find? (matchP guess) rest <;> simp

/-- C5: the style loop of the policies resolves a token to the first style
in the fixed priority order EqualWithValue, Argument, Boolean,
CombinedOption, EmbeddedValue for which the guess produces a match, it
consults no style beyond that one, and the first-generation forward policy
iterates the same styles in the same order. -/
theorem c5_style_priority_first_match (guess : UStyle → Option GuessRes) :
    (processStyles guess).matchedStyle = delayOptStyles.find? (matchP guess)
    ∧ ((processStyles guess).tried =
        (match delayOptStyles.find? (matchP guess) with
         | some m =>
            delayOptStyles.takeWhile (fun s => !(matchP guess s)) ++ [m]
         | none => delayOptStyles))
    ∧ forwardParserStates.map PState.style = delayOptStyles := by
  have h := styleLoop_run guess delayOptStyles
    { matched := false, consume := false, savers := [], tried := [],
      matchedStyle := none } rfl rfl rfl
  exact ⟨h.1, by simpa using h.2.2.2, rfl⟩

/-- C6: a token that carries a recognized option syntax but for which no
style produces a match aborts the option loop with the
`sp_invalid_option_name` error when strict mode is on, and is appended to
the NOA list with the loop continuing when strict mode is off. -/
theorem c6_unknown_option_strict_vs_noa (t : Tok) (name : String)
    (rest : List Tok) (hcl : t.cl = some name)
    (hno : ∀ s, matchP t.guess s = false) :
    delayOptLoop true (t :: rest) = .error (.invalidOptName name)
    ∧ delayOptLoop false (t :: rest) =
        (delayOptLoop false rest).map (fun p => (p.1, t.text :: p.2)) := by
  have hfind : delayOptStyles.find? (matchP t.guess) = none := by
    rw [List.find?_eq_none]
    intro x _
    rw [hno x]
    exact Bool.false_ne_true
  have h := styleLoop_run t.guess delayOptStyles
    { matched := false, consume := false, savers := [], tried := [],
      matchedStyle := none } rfl rfl rfl
  have hup : processStyles t.guess = styleLoop t.guess delayOptStyles
      { matched := false, consume := false, savers := [], tried := [],
        matchedStyle := none } := rfl
  have hmatched : (processStyles t.guess).matched = false := by
    rw [hup, h.2.1, hfind]
    rfl
  have hsavers : (processStyles t.guess).savers = [] := by
    rw [hup, h.2.2.1, hfind]
  have hptT : processTok true t = .error (.invalidOptName name) := by
    simp [processTok, hcl, hmatched]
  have hptF : processTok false t =
      .ok { matched := false, consume := (processStyles t.guess).consume,
            savers := [], noaPush := true } := by
    simp [processTok, hcl, hmatched, hsavers]
  refine ⟨?_, ?_⟩
  · cases rest with
    | nil => simp [delayOptLoop, hptT]
    | cons t' rest' => simp [delayOptLoop, hptT]
  · cases rest with
    | nil => simp [delayOptLoop, hptF, Except.map]
    | cons t' rest' =>
      simp only [delayOptLoop, hptF]
      cases hrec : delayOptLoop false (t' :: rest') with
      | error e => simp [Except.map]
      | ok p => simp [Except.map]

/-- C6 witness: the strict/non-strict dichotomy applied to the concrete
unmatched option-looking token `--bogus`. -/
theorem c6_unknown_option_strict_vs_noa_witness :
    delayOptLoop true [exBogusTok] = .error (.invalidOptName "bogus")
    ∧ delayOptLoop false [exBogusTok] =
        (delayOptLoop false []).map (fun p => (p.1, "--bogus" :: p.2)) :=
  c6_unknown_option_strict_vs_noa exBogusTok "bogus" [] rfl (fun _ => rfl)

/-- A list whose members all lie in one phase is phase-monotone. -/
theorem pairwisePhase_const (l : List Event) (c : Nat)
    (h : ∀ x ∈ l, evPhase x = c) : l.Pairwise phaseLE :=
  List.pairwise_of_forall_mem_list (fun a ha b hb => by
    unfold phaseLE
    rw [h a ha, h b hb])

/-- Appending a block of one later phase to a phase-monotone,
phase-bounded prefix keeps it phase-monotone and bounded. -/
theorem phase_step (pfx blk : List Event) (k c : Nat) (hk : k ≤ c)
    (hpw : pfx.Pairwise phaseLE) (hub : ∀ x ∈ pfx, evPhase x ≤ k)
    (hblk : ∀ x ∈ blk, evPhase x = c) :
    ((pfx ++ blk).Pairwise phaseLE) ∧ (∀ x ∈ pfx ++ blk, evPhase x ≤ c) := by
  constructor
  · rw [List.pairwise_append]
    refine ⟨hpw, pairwisePhase_const blk c hblk, fun a ha b hb => ?_⟩
    unfold phaseLE
    rw [hblk b hb]
    exact le_trans (hub a ha) hk
  · intro x hx
    rcases List.mem_append.1 hx with h | h
    · exact le_trans (hub x h) hk
    · rw [hblk x h]

/-- A filterMap over a list on which the function never fires is empty. -/
theorem filterMap_none_of {α β : Type} (f : α → Option β) (l : List α)
    (h : ∀ x ∈ l, f x = none) : l.filterMap f = [] := by
  induction l with
  | nil => rfl
  | cons a t ih =>
    rw [List.filterMap_cons, h a (by simp)]
    exact ih (fun x hx => h x (by simp [hx]))

/-- Every element of the positional-processing event block is a `noaPos`
event. -/
theorem posBlock_shape (n : Nat) (f : Nat → Bool) :
    ∀ x ∈ (List.range n).filterMap (fun idx =>
      if f (idx + 1) then some (Event.noaPos (idx + 1)) else none),
    ∃ i, x = Event.noaPos i := by
  intro x hx
  obtain ⟨a, _, hfa⟩ := List.mem_filterMap.1 hx
  by_cases hc : f (a + 1)
  · rw [if_pos hc] at hfa
    exact ⟨a + 1, (Option.some.inj hfa).symm⟩
  · rw [if_neg hc] at hfa
    simp at hfa

/-- C3 counterexample: the claim says every deferred option handler is
invoked only after the opt check and the pos check have completed.  In the
concrete delay parse below the deferred handler of the matched option
(uid 7) is invoked, yet its invocation event is not preceded by the
opt-check event: the trace contains Pos processing, then the invocation,
then the opt and pos checks. -/
theorem c3_deferred_invoked_before_checks_cex :
    delayParse true [] [exOptTok, exValTok, exNoaTok]
        { cmdMat := false, posMat := fun i => i == 1, mainMat := true } =
      .ok (true, exDelayTrace)
    ∧ Event.invokeOpt 7 ∈ exDelayTrace
    ∧ Event.optCheckEv ∈ exDelayTrace
    ∧ ¬ [Event.optCheckEv, Event.invokeOpt 7].Sublist exDelayTrace
    ∧ [Event.noaPos 1, Event.invokeOpt 7, Event.optCheckEv,
        Event.posCheckEv].Sublist exDelayTrace :=
  ⟨rfl, by decide, by decide, by decide, by decide⟩

/-- C3 as amended: in every successful delay-policy parse the event trace
is phase-monotone — so every deferred option-handler invocation (phase 5)
comes after all Cmd processing (2), the cmd check (3) and all Pos
processing (4), and before the opt check (6), the pos check (7) and Main
processing (8) — and the sequence of uids whose deferred handlers are
invoked is exactly the sequence of uids matched by the option loop, in
match order. -/
theorem c3_delay_order_amended (strict : Bool) (set : ESet) (toks : List Tok)
    (ncfg : NoaCfg) (b : Bool) (tr : List Event)
    (hparse : delayParse strict set toks ncfg = .ok (b, tr)) :
    tr.Pairwise phaseLE ∧ tr.filterMap matchUid = tr.filterMap invokeUid := by
  unfold delayParse at hparse
  cases hpre : preCheck set with
  | error e =>
    rw [hpre] at hparse
    exact absurd hparse (by simp)
  | ok u1 =>
  rw [hpre] at hparse
  dsimp only at hparse
  cases hloop : delayOptLoop strict toks with
  | error e =>
    rw [hloop] at hparse
    exact absurd hparse (by simp)
  | ok pr =>
  obtain ⟨ctxs, noaArgs⟩ := pr
  rw [hloop] at hparse
  dsimp only at hparse
  cases hcmd : cmdCheck set with
  | error e =>
    rw [hcmd] at hparse
    exact absurd hparse (by simp)
  | ok u2 =>
  rw [hcmd] at hparse
  dsimp only at hparse
  cases hoc : optCheck set with
  | error e =>
    rw [hoc] at hparse
    exact absurd hparse (by simp)
  | ok u3 =>
  rw [hoc] at hparse
  dsimp only at hparse
  cases hpc : posCheck set with
  | error e =>
    rw [hpc] at hparse
    exact absurd hparse (by simp)
  | ok u4 =>
  rw [hpc] at hparse
  dsimp only at hparse
  cases hpost : postCheck set with
  | error e =>
    rw [hpost] at hparse
    exact absurd hparse (by simp)
  | ok u5 =>
  rw [hpost] at hparse
  dsimp only at hparse
  simp only [Except.ok.injEq, Prod.mk.injEq] at hparse
  obtain ⟨-, htr⟩ := hparse
  subst htr
  have hM : ∀ x ∈ List.map Event.optMatch ctxs, evPhase x = 1 := by
    intro x hx
    obtain ⟨u, -, rfl⟩ := List.mem_map.1 hx
    rfl
  have hI : ∀ x ∈ List.map Event.invokeOpt ctxs, evPhase x = 5 := by
    intro x hx
    obtain ⟨u, -, rfl⟩ := List.mem_map.1 hx
    rfl
  have hC : ∀ x ∈ (if ncfg.cmdMat then [Event.noaCmd] else []), evPhase x = 2 := by
    cases ncfg.cmdMat
    · intro x hx
      simp at hx
    · intro x hx
      simp at hx
      subst hx
      rfl
  have hMn : ∀ x ∈ (if ncfg.mainMat then [Event.noaMain] else []), evPhase x = 8 := by
    cases ncfg.mainMat
    · intro x hx
      simp at hx
    · intro x hx
      simp at hx
      subst hx
      rfl
  have hsg : ∀ (e : Event) (x : Event), x ∈ [e] → evPhase x = evPhase e := by
    intro e x hx
    have hxe : x = e := List.mem_singleton.1 hx
    subst hxe
    rfl
  have s0pw : ([Event.preCheckEv] : List Event).Pairwise phaseLE :=
    pairwisePhase_const _ 0 (hsg .preCheckEv)
  have s0ub : ∀ x ∈ ([Event.preCheckEv] : List Event), evPhase x ≤ 0 := by
    intro x hx
    rw [hsg .preCheckEv x hx]
    exact Nat.le.refl
  have compM : matchUid ∘ Event.optMatch = some := rfl
  have compMI : matchUid ∘ Event.invokeOpt = (fun _ => none) := rfl
  have compVM : invokeUid ∘ Event.optMatch = (fun _ => none) := rfl
  have compVI : invokeUid ∘ Event.invokeOpt = some := rfl
  have mC : ∀ (f : Event → Option Nat) (e : Event), f e = none →
      List.filterMap f (if ncfg.cmdMat then [e] else []) = [] := by
    intro f e hf
    cases ncfg.cmdMat
    · rfl
    · simp [hf]
  have mMn : ∀ (f : Event → Option Nat) (e : Event), f e = none →
      List.filterMap f (if ncfg.mainMat then [e] else []) = [] := by
    intro f e hf
    cases ncfg.mainMat
    · rfl
    · simp [hf]
  have mP : ∀ (f : Event → Option Nat), (∀ i, f (Event.noaPos i) = none) →
      List.filterMap f ((List.range noaArgs.length).filterMap (fun idx =>
        if ncfg.posMat (idx + 1) then some (Event.noaPos (idx + 1))
        else none)) = [] := by
    intro f hf
    apply filterMap_none_of
    intro x hx
    obtain ⟨i, rfl⟩ := posBlock_shape _ _ x hx
    exact hf i
  split
  · -- NOA list non-empty: Cmd, cmd check and Pos processing precede
    constructor
    · have t1 := phase_step _ _ 0 1 (by omega) s0pw s0ub hM
      have t2 := phase_step _ _ 1 2 (by omega) t1.1 t1.2 hC
      have t3 := phase_step _ _ 2 3 (by omega) t2.1 t2.2 (hsg .cmdCheckEv)
      have t4 := phase_step _ _ 3 4 (by omega) t3.1 t3.2 (by
        intro x hx
        obtain ⟨i, rfl⟩ := posBlock_shape noaArgs.length ncfg.posMat x hx
        rfl)
      have t5 := phase_step _ _ 4 5 (by omega) t4.1 t4.2 hI
      have t6 := phase_step _ _ 5 6 (by omega) t5.1 t5.2 (hsg .optCheckEv)
      have t7 := phase_step _ _ 6 7 (by omega) t6.1 t6.2 (hsg .posCheckEv)
      have t8 := phase_step _ _ 7 8 (by omega) t7.1 t7.2 hMn
      exact (phase_step _ _ 8 9 (by omega) t8.1 t8.2 (hsg .postCheckEv)).1
    · simp only [List.filterMap_append]
      rw [List.filterMap_map, List.filterMap_map, List.filterMap_map,
        List.filterMap_map, compM, compMI, compVM, compVI,
        List.filterMap_some, mC matchUid .noaCmd rfl, mC invokeUid .noaCmd rfl,
        mMn matchUid .noaMain rfl, mMn invokeUid .noaMain rfl,
        mP matchUid (fun _ => rfl), mP invokeUid (fun _ => rfl),
        filterMap_none_of _ ctxs (fun _ _ => rfl)]
      simp [matchUid, invokeUid]
  · -- NOA list empty: only the cmd check precedes the invocations
    constructor
    · have t1 := phase_step _ _ 0 1 (by omega) s0pw s0ub hM
      have t3 := phase_step _ _ 1 3 (by omega) t1.1 t1.2 (hsg .cmdCheckEv)
      have t5 := phase_step _ _ 3 5 (by omega) t3.1 t3.2 hI
      have t6 := phase_step _ _ 5 6 (by omega) t5.1 t5.2 (hsg .optCheckEv)
      have t7 := phase_step _ _ 6 7 (by omega) t6.1 t6.2 (hsg .posCheckEv)
      have t8 := phase_step _ _ 7 8 (by omega) t7.1 t7.2 hMn
      exact (phase_step _ _ 8 9 (by omega) t8.1 t8.2 (hsg .postCheckEv)).1
    · simp only [List.filterMap_append]
      rw [List.filterMap_map, List.filterMap_map, List.filterMap_map,
        List.filterMap_map, compM, compMI, compVM, compVI,
        List.filterMap_some,
        mMn matchUid .noaMain rfl, mMn invokeUid .noaMain rfl,
        filterMap_none_of _ ctxs (fun _ _ => rfl)]
      simp [matchUid, invokeUid]

/-- C3 witness for the amended ordering theorem: the sample delay parse. -/
theorem c3_delay_order_amended_witness :
    exDelayTrace.Pairwise phaseLE
    ∧ exDelayTrace.filterMap matchUid = exDelayTrace.filterMap invokeUid :=
  c3_delay_order_amended true [] [exOptTok, exValTok, exNoaTok]
    { cmdMat := false, posMat := fun i => i == 1, mainMat := true } true
    exDelayTrace rfl

/-- C7: the claim says a force-required option left unset makes the parse
fail at the opt-check phase.  On a set holding a single force-required,
unset Argument-style option, `opt_check` computes `Ok(false)`, but
`DelayPolicy::parse` applies `?` to that result, which only propagates the
error path, so the failed check is discarded and the parse still returns
success. -/
theorem c7_opt_check_failure_not_propagated :
    optCheck [exForceOpt] = .ok false
    ∧ delayParse true [exForceOpt] []
        { cmdMat := false, posMat := fun _ => false, mainMat := false } =
      .ok (true, [.preCheckEv, .cmdCheckEv, .optCheckEv, .posCheckEv, .postCheckEv]) :=
  ⟨rfl, rfl⟩

/-- C8: the invocation contract of `wrap_handler`: an extraction failure is
returned unchanged (whatever the handler and store are, so neither runs);
a handler error is returned unchanged (whatever the store is); and a
successful handler output of no value leaves the stored slot unchanged
under the default store. -/
theorem c8_invocation_contract (A B R : Type) (eExt eHdl : Err)
    (h : A → Except Err (Option B)) (st : Option B → Except Err R)
    (a₁ a₂ : A) (slot : List B)
    (h₁ : h a₁ = .error eHdl) (h₂ : h a₂ = .ok none) :
    wrapHandler (.error eExt) h st = .error eExt
    ∧ wrapHandler (.ok a₁) h st = .error eHdl
    ∧ wrapHandler (.ok a₂) h (defStore slot) = .ok slot := by
  refine ⟨rfl, ?_, ?_⟩
  · have e : wrapHandler (.ok a₁) h st = Except.bind (h a₁) st := rfl
    rw [e, h₁]
    rfl
  · have e : wrapHandler (.ok a₂) h (defStore slot) =
        Except.bind (h a₂) (defStore slot) := rfl
    rw [e, h₂]
    rfl

/-- C8 witness: the contract applied to a concrete handler over natural
numbers that fails on input 0 and returns no value on input 1. -/
theorem c8_invocation_contract_witness :
    wrapHandler (.error (.failure "ext")) (fun n : Nat =>
        if n = 0 then .error (.failure "hdl") else .ok (none : Option Nat))
      (defStore [5]) = .error (.failure "ext")
    ∧ wrapHandler (.ok 0) (fun n : Nat =>
        if n = 0 then .error (.failure "hdl") else .ok (none : Option Nat))
      (defStore [5]) = .error (.failure "hdl")
    ∧ wrapHandler (.ok 1) (fun n : Nat =>
        if n = 0 then .error (.failure "hdl") else .ok (none : Option Nat))
      (defStore [5]) = .ok [5] :=
  c8_invocation_contract Nat Nat (List Nat) (.failure "ext") (.failure "hdl")
    (fun n => if n = 0 then .error (.failure "hdl") else .ok none)
    (defStore [5]) 0 1 [5] rfl rfl

/-- The group loop succeeds exactly when every visited group's fold comes
out valid — a membership condition, so it is invariant under the order in
which the hash map happens to enumerate the groups. -/
theorem posCheckGroups_ok_iff (set : ESet) :
    ∀ l : List (Nat × List Nat),
    (posCheckGroups set l = .ok () ↔ ∀ p ∈ l, (groupFold set p.2).1 = true) := by
  intro l
  induction l with
  | nil => simp [posCheckGroups]
  | cons g rest ih =>
    obtain ⟨k, uids⟩ := g
    by_cases hs : (groupFold set uids).1 = true
    · simp [posCheckGroups, hs, ih]
    · simp [posCheckGroups, hs]

/-- Two runs of `pos_check` whose hash maps enumerate the index groups in
different orders agree on the success-or-failure verdict (and on the
success value, which is always `Ok(true)`). -/
theorem posCheckOrd_perm_ok (set : ESet) (flt : List Nat)
    (ord₁ ord₂ : List (Nat × List Nat)) (hp : ord₁.Perm ord₂) :
    (posCheckOrd set ord₁ flt = .ok true ↔ posCheckOrd set ord₂ flt = .ok true) := by
  have hg : (posCheckGroups set ord₁ = .ok ()) ↔ (posCheckGroups set ord₂ = .ok ()) := by
    rw [posCheckGroups_ok_iff, posCheckGroups_ok_iff]
    exact ⟨fun h p hm => h p (hp.mem_iff.2 hm), fun h p hm => h p (hp.mem_iff.1 hm)⟩
  unfold posCheckOrd
  cases h1 : posCheckGroups set ord₁ with
  | error e =>
    cases h2 : posCheckGroups set ord₂ with
    | error e2 =>
      rw [h1] at hg
      constructor <;> intro h <;> exact absurd h (by simp)
    | ok u =>
      cases u
      rw [h1, h2] at hg
      exact absurd (hg.2 rfl) (by simp)
  | ok u =>
    cases u
    cases h2 : posCheckGroups set ord₂ with
    | error e2 =>
      rw [h1, h2] at hg
      exact absurd (hg.1 rfl) (by simp)
    | ok u2 =>
      cases u2
      exact Iff.rfl

/-- C9 counterexample: the claim says re-running a checkpoint on the
unchanged set returns identical results both times.  On a set with two
exact-index groups each holding a force-required unset positional option,
two admissible runs of `pos_check` — the hash map visiting the groups in
the two possible orders, both permutations of the collected entries —
return `sp_pos_force_require` errors naming different groups. -/
theorem c9_pos_check_order_dependent_cex :
    (posGroups [exPosUnsetOpt, exPosUnsetOpt2]).1 = [(1, [2]), (2, [4])]
    ∧ (posGroups [exPosUnsetOpt, exPosUnsetOpt2]).2 = []
    ∧ List.Perm [(2, [4]), (1, [2])] (posGroups [exPosUnsetOpt, exPosUnsetOpt2]).1
    ∧ posCheckOrd [exPosUnsetOpt, exPosUnsetOpt2] [(1, [2]), (2, [4])]
        (posGroups [exPosUnsetOpt, exPosUnsetOpt2]).2 =
        .error (.posForceRequire "posB")
    ∧ posCheckOrd [exPosUnsetOpt, exPosUnsetOpt2] [(2, [4]), (1, [2])]
        (posGroups [exPosUnsetOpt, exPosUnsetOpt2]).2 =
        .error (.posForceRequire "posD")
    ∧ Err.posForceRequire "posB" ≠ Err.posForceRequire "posD" :=
  ⟨rfl, rfl, List.Perm.swap (1, [2]) (2, [4]) [], rfl, rfl, by decide⟩

/-- C9 as amended: no checkpoint mutates the option set; re-running
`pre_check`, `opt_check`, `cmd_check` or `post_check` on the unchanged set
returns the identical result; and re-running `pos_check` returns the same
success-or-failure verdict, though two runs may visit the index groups in
different hash-map orders and on failure may name different groups. -/
theorem c9_check_service_amended (k : Checkpoint) (s : ESet)
    (ord₁ ord₂ : List (Nat × List Nat))
    (h₁ : ord₁.Perm (posGroups s).1) (h₂ : ord₂.Perm (posGroups s).1) :
    (runCheckpoint k s).1 = s
    ∧ (k ≠ .pos → runCheckpoint k (runCheckpoint k s).1 = runCheckpoint k s)
    ∧ (posCheckOrd s ord₁ (posGroups s).2 = .ok true ↔
        posCheckOrd s ord₂ (posGroups s).2 = .ok true) := by
  refine ⟨?_, ?_, ?_⟩
  · cases k <;> rfl
  · intro _
    cases k <;> rfl
  · exact posCheckOrd_perm_ok s (posGroups s).2 ord₁ ord₂ (h₁.trans h₂.symm)

/-- C9 witness for the amended theorem: the two-group sample set with the
two admissible group orders. -/
theorem c9_check_service_amended_witness :
    (runCheckpoint .opt [exPosUnsetOpt, exPosUnsetOpt2]).1 =
      [exPosUnsetOpt, exPosUnsetOpt2]
    ∧ (Checkpoint.opt ≠ Checkpoint.pos →
        runCheckpoint .opt (runCheckpoint .opt [exPosUnsetOpt, exPosUnsetOpt2]).1 =
          runCheckpoint .opt [exPosUnsetOpt, exPosUnsetOpt2])
    ∧ (posCheckOrd [exPosUnsetOpt, exPosUnsetOpt2] [(1, [2]), (2, [4])]
          (posGroups [exPosUnsetOpt, exPosUnsetOpt2]).2 = .ok true ↔
        posCheckOrd [exPosUnsetOpt, exPosUnsetOpt2] [(2, [4]), (1, [2])]
          (posGroups [exPosUnsetOpt, exPosUnsetOpt2]).2 = .ok true) :=
  c9_check_service_amended .opt [exPosUnsetOpt, exPosUnsetOpt2]
    [(1, [2]), (2, [4])] [(2, [4]), (1, [2])]
    (List.Perm.refl _) (List.Perm.swap (1, [2]) (2, [4]) [])

/-- C10: the Main catch-all option is always optional: `get_optional`
returns true for every `MainOpt`, `set_optional` leaves the option
unchanged, and `check()` never returns a force-required error. -/
theorem c10_main_always_optional (m : MainOpt) (b : Bool) :
    m.getOptional = true ∧ m.setOptional b = m ∧ m.check = .ok true :=
  ⟨rfl, rfl, rfl⟩

end GetoptRs
